import Mathlib

/-
Verification of the in-memory blockchain storage backend
(`base_layer/core/src/chain_storage/memory_db.rs`).

The flat key/value tables (Rust `HashMap`s) are modelled as association
lists with unique keys; hashes and opaque payloads are natural numbers.
The Merkle Mountain Range change tracker (`tari_mmr` crate, collaborator
contract of spec section 4.2) is not part of the source excerpt and is
modelled from the spec.  The batch write path, the spend/unspend helpers
and the query layer are translated directly from `memory_db.rs`.
-/

namespace Tari

/-- Hashes (output commitments, kernel hashes, range-proof hashes, block
hashes) are modelled as natural numbers. -/
abbrev Hash := Nat

/-- Association-list model of Rust's `HashMap`.  Operations below keep keys
unique, matching the `HashMap` contract. -/
abbrev Table (α β : Type) := List (α × β)

/-- Lookup by key, mirroring `HashMap::get`. -/
def tfind? {α β : Type} [DecidableEq α] : Table α β → α → Option β
  | [], _ => none
  | (k2, v) :: rest, k => if k2 = k then some v else tfind? rest k

/-- Key membership, mirroring `HashMap::contains_key`. -/
def tcontains {α β : Type} [DecidableEq α] (t : Table α β) (k : α) : Bool :=
  (tfind? t k).isSome

/-- Removal by key, mirroring `HashMap::remove` (all bindings of the key
disappear; on a unique-key table this is the single binding). -/
def tremove {α β : Type} [DecidableEq α] : Table α β → α → Table α β
  | [], _ => []
  | (k2, v) :: rest, k => if k2 = k then tremove rest k else (k2, v) :: tremove rest k

/-- Insertion, mirroring `HashMap::insert` (replaces any existing binding
of the key). -/
def tinsert {α β : Type} [DecidableEq α] (t : Table α β) (k : α) (v : β) : Table α β :=
  (k, v) :: tremove t k

/-- Modelled from the spec: a `MutableMmr` of the `tari_mmr` crate (not in
the source excerpt) is an ordered leaf-hash sequence together with a
tombstone record for deleted leaf positions. -/
structure MutableMmr where
  leaves : List Hash
  deleted : List Nat
deriving DecidableEq

/-- Modelled from the spec: `MutableMmr::push` appends a new leaf. -/
def MutableMmr.push (m : MutableMmr) (h : Hash) : MutableMmr :=
  { m with leaves := m.leaves ++ [h] }

/-- Modelled from the spec: `MutableMmr::delete` tombstones a leaf position
without resizing the leaf sequence. -/
def MutableMmr.delete (m : MutableMmr) (i : Nat) : MutableMmr :=
  { m with deleted := m.deleted ++ [i] }

/-- Modelled from the spec: the Merkle root commits to the leaf sequence and
the tombstone record; it is modelled abstractly as that data itself. -/
def MutableMmr.getMerkleRoot (m : MutableMmr) : List Hash × List Nat :=
  (m.leaves, m.deleted)

/-- Modelled from the spec: a committed checkpoint records the leaves pushed
and the positions tombstoned since the previous checkpoint. -/
structure MerkleCheckPoint where
  nodesAdded : List Hash
  nodesDeleted : List Nat
deriving DecidableEq

/-- Modelled from the spec: replaying a checkpoint on top of an accumulator
state appends its pushed leaves and its tombstoned positions. -/
def MerkleCheckPoint.applyTo (cp : MerkleCheckPoint) (m : MutableMmr) : MutableMmr :=
  { leaves := m.leaves ++ cp.nodesAdded, deleted := m.deleted ++ cp.nodesDeleted }

/-- Modelled from the spec: a `MerkleChangeTracker` of the `tari_mmr` crate
(not in the source excerpt) holds a base accumulator state, the committed
checkpoint history on top of it, and the pending (uncommitted) pushes and
tombstones since the last checkpoint. -/
structure MerkleChangeTracker where
  base : MutableMmr
  checkpoints : List MerkleCheckPoint
  pendingAdds : List Hash
  pendingDeletes : List Nat
deriving DecidableEq

/-- The committed accumulator state: the base state with every checkpoint
replayed in order. -/
def MerkleChangeTracker.committed (t : MerkleChangeTracker) : MutableMmr :=
  t.checkpoints.foldl (fun m cp => cp.applyTo m) t.base

/-- The current accumulator state: the committed state plus pending pushes
and pending tombstones. -/
def MerkleChangeTracker.current (t : MerkleChangeTracker) : MutableMmr :=
  { leaves := t.committed.leaves ++ t.pendingAdds,
    deleted := t.committed.deleted ++ t.pendingDeletes }

/-- Modelled from the spec: `push` appends a new leaf, pending until
`commit`. -/
def MerkleChangeTracker.push (t : MerkleChangeTracker) (h : Hash) : MerkleChangeTracker :=
  { t with pendingAdds := t.pendingAdds ++ [h] }

/-- Modelled from the spec: `delete` tombstones a leaf position, pending
until `commit`. -/
def MerkleChangeTracker.delete (t : MerkleChangeTracker) (i : Nat) : MerkleChangeTracker :=
  { t with pendingDeletes := t.pendingDeletes ++ [i] }

/-- Modelled from the spec: `commit` seals all pending pushes and tombstones
since the last commit into a new checkpoint appended to the history. -/
def MerkleChangeTracker.commit (t : MerkleChangeTracker) : MerkleChangeTracker :=
  { t with checkpoints := t.checkpoints ++ [⟨t.pendingAdds, t.pendingDeletes⟩],
           pendingAdds := [], pendingDeletes := [] }

/-- Modelled from the spec: `reset` discards all uncommitted pending changes,
restoring the accumulator to its last committed state. -/
def MerkleChangeTracker.reset (t : MerkleChangeTracker) : MerkleChangeTracker :=
  { t with pendingAdds := [], pendingDeletes := [] }

/-- Modelled from the spec: `rewind steps` discards the most recent `steps`
checkpoints (and any pending changes), restoring the accumulator to the
state at the earlier checkpoint. -/
def MerkleChangeTracker.rewind (t : MerkleChangeTracker) (steps : Nat) : MerkleChangeTracker :=
  { t with checkpoints := t.checkpoints.take (t.checkpoints.length - steps),
           pendingAdds := [], pendingDeletes := [] }

/-- Modelled from the spec: the number of committed checkpoints retained. -/
def MerkleChangeTracker.checkpointCount (t : MerkleChangeTracker) : Nat :=
  t.checkpoints.length

/-- Index of the first occurrence of a hash in a leaf sequence. -/
def findLeafIndexIn : List Hash → Hash → Option Nat
  | [], _ => none
  | x :: rest, h => if x = h then some 0 else (findLeafIndexIn rest h).map (· + 1)

/-- Modelled from the spec: `find_leaf_index` is the reverse lookup from a
leaf hash back to its index in the current leaf sequence. -/
def MerkleChangeTracker.findLeafIndex (t : MerkleChangeTracker) (h : Hash) : Option Nat :=
  findLeafIndexIn t.current.leaves h

/-- Modelled from the spec: `get_checkpoint` retrieves a historical
checkpoint by its position relative to the oldest retained checkpoint. -/
def MerkleChangeTracker.getCheckpoint (t : MerkleChangeTracker) (i : Nat) :
    Option MerkleCheckPoint :=
  t.checkpoints.get? i

/-- Modelled from the spec: the tracker's Merkle root is the root of its
current accumulator state. -/
def MerkleChangeTracker.getMerkleRoot (t : MerkleChangeTracker) : List Hash × List Nat :=
  t.current.getMerkleRoot

/-- Modelled from the spec: `prune_mutable_mmr` takes a pruned copy of the
tracker usable as a disposable scratch accumulator; the spec requires the
copy to carry the current leaf/tombstone state (so that its root agrees
with the tracker's root). -/
def pruneMutableMmr (t : MerkleChangeTracker) : MutableMmr :=
  t.current

/-- A `TransactionOutput`: an opaque payload plus the hash of its range
proof (`v.proof().hash()` in the source). -/
structure TransactionOutput where
  features : Nat
  proofHash : Hash
deriving DecidableEq

/-- `MerkleNode`: a stored record together with its accumulator leaf index,
making reverse lookups possible (memory_db.rs, line 57). -/
structure MerkleNode (α : Type) where
  index : Nat
  value : α
deriving DecidableEq

/-- A block header: its own hash (`v.hash()` in the source) plus an opaque
payload. -/
structure BlockHeader where
  hashVal : Hash
  payload : Nat
deriving DecidableEq

/-- The hash of a block header. -/
def BlockHeader.hash (h : BlockHeader) : Hash := h.hashVal

/-- The `InnerDatabase` state (memory_db.rs, lines 62-77): five key/value
tables, the header-hash reverse index, and the three MMR change trackers. -/
structure InnerDatabase where
  metadata : Table Nat Nat
  headers : Table Nat BlockHeader
  blockHashes : Table Hash Nat
  utxos : Table Hash (MerkleNode TransactionOutput)
  stxos : Table Hash (MerkleNode TransactionOutput)
  kernels : Table Hash Nat
  orphans : Table Hash Nat
  utxoMmr : MerkleChangeTracker
  kernelMmr : MerkleChangeTracker
  rangeProofMmr : MerkleChangeTracker
deriving DecidableEq

/-- The tree selector (`MmrTree`). -/
inductive MmrTree
  | utxo
  | kernel
  | rangeProof
deriving DecidableEq

/-- The accumulator selected by a tree selector. -/
def mmrOf (db : InnerDatabase) : MmrTree → MerkleChangeTracker
  | .utxo => db.utxoMmr
  | .kernel => db.kernelMmr
  | .rangeProof => db.rangeProofMmr

/-- Database keys (`DbKey`). -/
inductive DbKey
  | metadata (k : Nat)
  | blockHeader (k : Nat)
  | blockHash (h : Hash)
  | unspentOutput (k : Hash)
  | spentOutput (k : Hash)
  | transactionKernel (k : Hash)
  | orphanBlock (k : Hash)
deriving DecidableEq

/-- Key/value pairs accepted by `Insert` (`DbKeyValuePair`). -/
inductive DbKeyValuePair
  | metadata (k : Nat) (v : Nat)
  | blockHeader (k : Nat) (v : BlockHeader)
  | unspentOutput (k : Hash) (v : TransactionOutput) (updateMmr : Bool)
  | transactionKernel (k : Hash) (v : Nat) (updateMmr : Bool)
  | orphanBlock (k : Hash) (v : Nat)
deriving DecidableEq

/-- Write operations of a batch (`WriteOperation`). -/
inductive WriteOperation
  | insert (p : DbKeyValuePair)
  | delete (k : DbKey)
  | spend (k : DbKey)
  | unspend (k : DbKey)
  | createMmrCheckpoint (tree : MmrTree)
  | rewindMmr (tree : MmrTree) (stepsBack : Nat)
deriving DecidableEq

/-- Error kinds of `ChainStorageError` used by the storage backend. -/
inductive ChainStorageError
  | accessError (msg : String)
  | invalidOperation (msg : String)
  | unspendableInput
  | unspendError
  | beyondPruningHorizon
  | unexpectedResult (msg : String)
deriving DecidableEq

/-- `spend_utxo` (memory_db.rs, lines 518-527): move a record from the UTXO
table to the STXO table and tombstone its leaf in the UTXO accumulator;
returns `false` when the hash is not a known UTXO. -/
def spendUtxo (db : InnerDatabase) (h : Hash) : InnerDatabase × Bool :=
  match tfind? db.utxos h with
  | none => (db, false)
  | some utxo =>
      ({ db with utxos := tremove db.utxos h,
                 utxoMmr := db.utxoMmr.delete utxo.index,
                 stxos := tinsert db.stxos h utxo }, true)

/-- `unspend_stxo` (memory_db.rs, lines 532-540): move a record back from the
STXO table to the UTXO table without touching any accumulator; returns
`false` when the hash is not a known STXO. -/
def unspendStxo (db : InnerDatabase) (h : Hash) : InnerDatabase × Bool :=
  match tfind? db.stxos h with
  | none => (db, false)
  | some stxo =>
      ({ db with stxos := tremove db.stxos h,
                 utxos := tinsert db.utxos h stxo }, true)

/-- One step of the batch write loop (memory_db.rs, lines 132-267): the state
after the operation together with the error aborting the batch, if any.
Mutations performed before an error are kept (the documented
weak-atomicity contract). -/
def applyOp (db : InnerDatabase) (op : WriteOperation) :
    InnerDatabase × Option ChainStorageError :=
  match op with
  | .insert p =>
    match p with
    | .metadata k v =>
        if tcontains db.metadata k then
          (db, some (.invalidOperation "Duplicate key"))
        else
          ({ db with metadata := tinsert db.metadata k v }, none)
    | .blockHeader k v =>
        if tcontains db.headers k then
          (db, some (.invalidOperation "Duplicate key"))
        else
          ({ db with blockHashes := tinsert db.blockHashes v.hash k,
                     headers := tinsert db.headers k v }, none)
    | .unspentOutput k v u =>
        if tcontains db.utxos k then
          (db, some (.invalidOperation "Duplicate key"))
        else
          let proofHash := v.proofHash
          let db1 :=
            if u then
              { db with utxoMmr := db.utxoMmr.push k,
                        rangeProofMmr := db.rangeProofMmr.push proofHash }
            else db
          match db1.rangeProofMmr.findLeafIndex proofHash with
          | some index => ({ db1 with utxos := tinsert db1.utxos k ⟨index, v⟩ }, none)
          | none => (db1, none)
    | .transactionKernel k v u =>
        if tcontains db.kernels k then
          (db, some (.invalidOperation "Duplicate key"))
        else
          let db1 := if u then { db with kernelMmr := db.kernelMmr.push k } else db
          ({ db1 with kernels := tinsert db1.kernels k v }, none)
    | .orphanBlock k v =>
        if tcontains db.orphans k then
          (db, some (.invalidOperation "Duplicate key"))
        else
          ({ db with orphans := tinsert db.orphans k v }, none)
  | .delete key =>
    match key with
    | .metadata _ => (db, none)
    | .blockHeader k =>
        match tfind? db.headers k with
        | none => (db, none)
        | some v =>
            ({ db with headers := tremove db.headers k,
                       blockHashes := tremove db.blockHashes v.hash }, none)
    | .blockHash h =>
        match tfind? db.blockHashes h with
        | none => (db, none)
        | some i =>
            ({ db with blockHashes := tremove db.blockHashes h,
                       headers := tremove db.headers i }, none)
    | .unspentOutput k => ({ db with utxos := tremove db.utxos k }, none)
    | .spentOutput k => ({ db with stxos := tremove db.stxos k }, none)
    | .transactionKernel k => ({ db with kernels := tremove db.kernels k }, none)
    | .orphanBlock k => ({ db with orphans := tremove db.orphans k }, none)
  | .spend key =>
    match key with
    | .unspentOutput h =>
        match spendUtxo db h with
        | (db1, true) => (db1, none)
        | (db1, false) => (db1, some .unspendableInput)
    | _ => (db, some (.invalidOperation "Only UTXOs can be spent"))
  | .unspend key =>
    match key with
    | .spentOutput h =>
        match unspendStxo db h with
        | (db1, true) => (db1, none)
        | (db1, false) => (db1, some .unspendError)
    | _ => (db, some (.invalidOperation "Only STXOs can be unspent"))
  | .createMmrCheckpoint tree =>
    match tree with
    | .kernel => ({ db with kernelMmr := db.kernelMmr.commit }, none)
    | .utxo => ({ db with utxoMmr := db.utxoMmr.commit }, none)
    | .rangeProof => ({ db with rangeProofMmr := db.rangeProofMmr.commit }, none)
  | .rewindMmr tree steps =>
    match tree with
    | .kernel =>
        ({ db with kernelMmr :=
             if steps = 0 then db.kernelMmr.reset else db.kernelMmr.rewind steps }, none)
    | .utxo =>
        ({ db with utxoMmr :=
             if steps = 0 then db.utxoMmr.reset else db.utxoMmr.rewind steps }, none)
    | .rangeProof =>
        ({ db with rangeProofMmr :=
             if steps = 0 then db.rangeProofMmr.reset else db.rangeProofMmr.rewind steps }, none)

/-- The batch write entry point (`write`, memory_db.rs, lines 125-270):
operations are applied strictly in order; the first error aborts the batch
without rolling back earlier operations. -/
def write (db : InnerDatabase) : List WriteOperation → InnerDatabase × Option ChainStorageError
  | [] => (db, none)
  | op :: rest =>
    match applyOp db op with
    | (db1, none) => write db1 rest
    | (db1, some e) => (db1, some e)

/-- The `contains` query (memory_db.rs, lines 299-311); metadata keys always
report present. -/
def containsKey (db : InnerDatabase) : DbKey → Bool
  | .metadata _ => true
  | .blockHeader k => tcontains db.headers k
  | .blockHash h => tcontains db.blockHashes h
  | .unspentOutput k => tcontains db.utxos k
  | .spentOutput k => tcontains db.stxos k
  | .transactionKernel k => tcontains db.kernels k
  | .orphanBlock k => tcontains db.orphans k

/-- The `fetch_mmr_root` query (memory_db.rs, lines 313-321). -/
def fetchMmrRoot (db : InnerDatabase) (tree : MmrTree) : List Hash × List Nat :=
  (mmrOf db tree).getMerkleRoot

/-- The `calculate_mmr_root` query (memory_db.rs, lines 333-357): build a
pruned scratch copy of the selected tracker, push the additions, resolve
each deletion hash through the UTXO table (UTXO tree only) and tombstone
the resolved index on the scratch copy, then read the scratch root.  The
unmodified database is returned alongside the root, mirroring the
read-only (`&self`, shared lock) access of the source. -/
def calculateMmrRoot (db : InnerDatabase) (tree : MmrTree) (adds dels : List Hash) :
    (List Hash × List Nat) × InnerDatabase :=
  let m0 := pruneMutableMmr (mmrOf db tree)
  let m1 := adds.foldl MutableMmr.push m0
  let m2 :=
    if tree = MmrTree.utxo then
      dels.foldl (fun m h =>
        match tfind? db.utxos h with
        | some node => m.delete node.index
        | none => m) m1
    else m1
  (m2.getMerkleRoot, db)

/-- The database state that actually pushing the additions into the selected
tracker and tombstoning the resolved deletion indices (UTXO tree only)
would have produced; the reference point for `calculateMmrRoot`. -/
def pushAndDelete (db : InnerDatabase) (tree : MmrTree) (adds dels : List Hash) :
    InnerDatabase :=
  let f : MerkleChangeTracker → MerkleChangeTracker := fun t0 =>
    let t1 := adds.foldl MerkleChangeTracker.push t0
    if tree = MmrTree.utxo then
      dels.foldl (fun t h =>
        match tfind? db.utxos h with
        | some node => t.delete node.index
        | none => t) t1
    else t1
  match tree with
  | .utxo => { db with utxoMmr := f db.utxoMmr }
  | .kernel => { db with kernelMmr := f db.kernelMmr }
  | .rangeProof => { db with rangeProofMmr := f db.rangeProofMmr }

/-- `fetch_horizon_block_height` (memory_db.rs, lines 461-466): the stored
header count minus the kernel tracker's committed checkpoint count.  The
subtraction is an unchecked Rust `usize` subtraction, which does not
return a value when the header count is smaller than the checkpoint count
(arithmetic underflow aborts the call); that case is modelled as `none`. -/
def fetchHorizonBlockHeight (db : InnerDatabase) : Option Nat :=
  let tipHeight := db.headers.length
  let checkpointCount := db.kernelMmr.checkpointCount
  if checkpointCount ≤ tipHeight then some (tipHeight - checkpointCount) else none

/-- `fetch_mmr_checkpoint` (memory_db.rs, lines 371-384): fails with
`BeyondPruningHorizon` when the height predates the horizon, otherwise
retrieves the checkpoint at index `height - horizon`, mapping a retrieval
failure to an `AccessError`.  The outer `Option` propagates the case in
which the horizon computation itself returns no value. -/
def fetchMmrCheckpoint (db : InnerDatabase) (tree : MmrTree) (height : Nat) :
    Option (Except ChainStorageError MerkleCheckPoint) :=
  match fetchHorizonBlockHeight db with
  | none => none
  | some horizonBlock =>
      if height < horizonBlock then
        some (Except.error ChainStorageError.beyondPruningHorizon)
      else
        match (mmrOf db tree).getCheckpoint (height - horizonBlock) with
        | some cp => some (Except.ok cp)
        | none => some (Except.error (ChainStorageError.accessError "MMR Checkpoint error"))

/-- An empty change tracker, as built by `MemoryDatabase::new`. -/
def emptyTracker : MerkleChangeTracker :=
  { base := { leaves := [], deleted := [] },
    checkpoints := [], pendingAdds := [], pendingDeletes := [] }

/-- The empty database, as built by `MemoryDatabase::new`. -/
def emptyDb : InnerDatabase :=
  { metadata := [], headers := [], blockHashes := [], utxos := [], stxos := [],
    kernels := [], orphans := [],
    utxoMmr := emptyTracker, kernelMmr := emptyTracker, rangeProofMmr := emptyTracker }

/-- Absence of a key from the table addressed by its variant (metadata keys
have no deletion semantics, so every metadata key counts as absent for the
purposes of the delete no-op). -/
def keyAbsent (db : InnerDatabase) : DbKey → Bool
  | .metadata _ => true
  | .blockHeader k => !tcontains db.headers k
  | .blockHash h => !tcontains db.blockHashes h
  | .unspentOutput k => !tcontains db.utxos k
  | .spentOutput k => !tcontains db.stxos k
  | .transactionKernel k => !tcontains db.kernels k
  | .orphanBlock k => !tcontains db.orphans k

/-- Removing a key makes its lookup come back empty. -/
theorem tfind?_tremove_self {α β : Type} [DecidableEq α] (t : Table α β) (k : α) :
    tfind? (tremove t k) k = none := by
  induction t with
  | nil => rfl
  | cons p rest ih =>
    obtain ⟨k2, v⟩ := p
    by_cases hk : k2 = k <;> simp [tremove, tfind?, hk, ih]

/-- Removing one key leaves lookups of other keys unchanged. -/
theorem tfind?_tremove_ne {α β : Type} [DecidableEq α] (t : Table α β) (k h : α)
    (hne : h ≠ k) : tfind? (tremove t k) h = tfind? t h := by
  induction t with
  | nil => rfl
  | cons p rest ih =>
    obtain ⟨k2, v⟩ := p
    by_cases hk : k2 = k
    · subst hk
      simp [tremove, tfind?, Ne.symm hne, ih]
    · by_cases hh : k2 = h
      · subst hh
        simp [tremove, tfind?, hk]
      · simp [tremove, tfind?, hk, hh, ih]

/-- Looking up a freshly inserted key returns the inserted value. -/
theorem tfind?_tinsert_self {α β : Type} [DecidableEq α] (t : Table α β) (k : α) (v : β) :
    tfind? (tinsert t k v) k = some v := by
  simp [tinsert, tfind?]

/-- Inserting one key leaves lookups of other keys unchanged. -/
theorem tfind?_tinsert_ne {α β : Type} [DecidableEq α] (t : Table α β) (k h : α) (v : β)
    (hne : h ≠ k) : tfind? (tinsert t k v) h = tfind? t h := by
  simp [tinsert, tfind?, Ne.symm hne, tfind?_tremove_ne t k h hne]

/-- Membership of a freshly inserted key. -/
theorem tcontains_tinsert_self {α β : Type} [DecidableEq α] (t : Table α β) (k : α) (v : β) :
    tcontains (tinsert t k v) k = true := by
  simp [tcontains, tfind?_tinsert_self]

/-- Insertion leaves membership of other keys unchanged. -/
theorem tcontains_tinsert_ne {α β : Type} [DecidableEq α] (t : Table α β) (k h : α) (v : β)
    (hne : h ≠ k) : tcontains (tinsert t k v) h = tcontains t h := by
  simp [tcontains, tfind?_tinsert_ne t k h v hne]

/-- A removed key is no longer a member. -/
theorem tcontains_tremove_self {α β : Type} [DecidableEq α] (t : Table α β) (k : α) :
    tcontains (tremove t k) k = false := by
  simp [tcontains, tfind?_tremove_self]

/-- Removal leaves membership of other keys unchanged. -/
theorem tcontains_tremove_ne {α β : Type} [DecidableEq α] (t : Table α β) (k h : α)
    (hne : h ≠ k) : tcontains (tremove t k) h = tcontains t h := by
  simp [tcontains, tfind?_tremove_ne t k h hne]

/-- Absent keys look up to nothing, and conversely. -/
theorem tcontains_eq_false_iff {α β : Type} [DecidableEq α] (t : Table α β) (k : α) :
    tcontains t k = false ↔ tfind? t k = none := by
  cases h : tfind? t k <;> simp [tcontains, h]

/-- Removing an absent key is the identity. -/
theorem tremove_of_not_contains {α β : Type} [DecidableEq α] (t : Table α β) (k : α)
    (h : tcontains t k = false) : tremove t k = t := by
  induction t with
  | nil => rfl
  | cons p rest ih =>
    obtain ⟨k2, v⟩ := p
    by_cases hk : k2 = k
    · subst hk
      simp [tcontains, tfind?] at h
    · simp [tcontains, tfind?, hk] at h
      simp [tremove, hk, ih ((tcontains_eq_false_iff rest k).mpr h)]

/-- Pushing on the tracker pushes on its current accumulator state. -/
theorem current_push (t : MerkleChangeTracker) (h : Hash) :
    (t.push h).current = t.current.push h := by
  simp [MerkleChangeTracker.push, MerkleChangeTracker.current,
        MerkleChangeTracker.committed, MutableMmr.push]

/-- Tombstoning on the tracker tombstones on its current accumulator state. -/
theorem current_delete (t : MerkleChangeTracker) (i : Nat) :
    (t.delete i).current = t.current.delete i := by
  simp [MerkleChangeTracker.delete, MerkleChangeTracker.current,
        MerkleChangeTracker.committed, MutableMmr.delete]

/-- A fold of tracker pushes acts on the current state as a fold of
accumulator pushes. -/
theorem current_foldl_push (adds : List Hash) (t : MerkleChangeTracker) :
    (adds.foldl MerkleChangeTracker.push t).current = adds.foldl MutableMmr.push t.current := by
  induction adds generalizing t with
  | nil => rfl
  | cons a rest ih => simp [List.foldl_cons, ih, current_push]

/-- A fold of resolved tracker tombstones acts on the current state as a fold
of resolved accumulator tombstones. -/
theorem current_foldl_delete (db : InnerDatabase) (dels : List Hash)
    (t : MerkleChangeTracker) :
    (dels.foldl (fun acc h =>
        match tfind? db.utxos h with
        | some node => acc.delete node.index
        | none => acc) t).current
      = dels.foldl (fun m h =>
        match tfind? db.utxos h with
        | some node => m.delete node.index
        | none => m) t.current := by
  induction dels generalizing t with
  | nil => rfl
  | cons d rest ih =>
    cases htf : tfind? db.utxos d with
    | none => simp [List.foldl_cons, htf, ih]
    | some node => simp [List.foldl_cons, htf, ih, current_delete]

/-- Reverse lookup always succeeds on a leaf sequence ending in the sought
hash. -/
theorem findLeafIndexIn_append_self (l : List Hash) (h : Hash) :
    (findLeafIndexIn (l ++ [h]) h).isSome = true := by
  induction l with
  | nil => simp [findLeafIndexIn]
  | cons x rest ih =>
    by_cases hx : x = h <;> simp [findLeafIndexIn, hx, ih]

/-- Pushing grows the current leaf sequence by exactly one. -/
theorem length_current_push (t : MerkleChangeTracker) (h : Hash) :
    (t.push h).current.leaves.length = t.current.leaves.length + 1 := by
  simp [current_push, MutableMmr.push]

/-- Claim C1: `fetch_horizon_block_height` returns the stored header count
minus the kernel tracker's committed checkpoint count, and when the header
count is smaller than the checkpoint count the call fails (the unchecked
usize subtraction aborts) rather than returning a value. -/
theorem horizon_height_spec (db : InnerDatabase) :
    (db.kernelMmr.checkpointCount ≤ db.headers.length →
       fetchHorizonBlockHeight db = some (db.headers.length - db.kernelMmr.checkpointCount)) ∧
    (db.headers.length < db.kernelMmr.checkpointCount →
       fetchHorizonBlockHeight db = none) := by
  constructor
  · intro h
    simp [fetchHorizonBlockHeight, h]
  · intro h
    simp [fetchHorizonBlockHeight, Nat.not_le.mpr h]

/-- Claim C1 witness: the empty database has horizon height zero, and a
database holding one committed kernel checkpoint but no headers makes the
call fail. -/
theorem horizon_height_spec_witness :
    fetchHorizonBlockHeight emptyDb = some 0 ∧
    fetchHorizonBlockHeight (applyOp emptyDb (.createMmrCheckpoint .kernel)).1 = none :=
  ⟨(horizon_height_spec emptyDb).1 (by decide),
   (horizon_height_spec (applyOp emptyDb (.createMmrCheckpoint .kernel)).1).2 (by decide)⟩

/-- Claim C6: spending a hash unknown to the UTXO table fails with
`UnspendableInput` and leaves the whole database (in particular both the
UTXO and STXO tables) unchanged, and a `Spend` of any key variant other
than `UnspentOutput` fails with `InvalidOperation`. -/
theorem spend_error_spec :
    (∀ (db : InnerDatabase) (h : Hash), tcontains db.utxos h = false →
       applyOp db (.spend (.unspentOutput h)) = (db, some .unspendableInput)) ∧
    (∀ (db : InnerDatabase) (key : DbKey), (∀ h : Hash, key ≠ .unspentOutput h) →
       applyOp db (.spend key)
         = (db, some (.invalidOperation "Only UTXOs can be spent"))) := by
  constructor
  · intro db h hc
    have hn : tfind? db.utxos h = none := (tcontains_eq_false_iff db.utxos h).mp hc
    simp [applyOp, spendUtxo, hn]
  · intro db key hk
    cases key with
    | unspentOutput h => exact absurd rfl (hk h)
    | metadata k => rfl
    | blockHeader k => rfl
    | blockHash h => rfl
    | spentOutput k => rfl
    | transactionKernel k => rfl
    | orphanBlock k => rfl

/-- Claim C6 witness: spending an unknown hash on the empty database fails
with `UnspendableInput` without touching state, and spending a metadata
key fails with `InvalidOperation`. -/
theorem spend_error_spec_witness :
    applyOp emptyDb (.spend (.unspentOutput 3)) = (emptyDb, some .unspendableInput) ∧
    applyOp emptyDb (.spend (.metadata 0))
      = (emptyDb, some (.invalidOperation "Only UTXOs can be spent")) :=
  ⟨spend_error_spec.1 emptyDb 3 (by decide),
   spend_error_spec.2 emptyDb (.metadata 0) (fun _ hco => DbKey.noConfusion hco)⟩

/-- Claim C10: deleting a key that is absent from its table succeeds
silently: no error is returned, the whole database (every table and every
accumulator) is unchanged, and the batch continues with the remaining
operations. -/
theorem delete_absent_noop (db : InnerDatabase) (key : DbKey)
    (habs : keyAbsent db key = true) :
    applyOp db (.delete key) = (db, none) ∧
    ∀ rest : List WriteOperation, write db (.delete key :: rest) = write db rest := by
  have hmain : applyOp db (.delete key) = (db, none) := by
    cases key with
    | metadata k => rfl
    | blockHeader k =>
        simp [keyAbsent] at habs
        have hn : tfind? db.headers k = none := (tcontains_eq_false_iff _ _).mp habs
        simp [applyOp, hn]
    | blockHash h =>
        simp [keyAbsent] at habs
        have hn : tfind? db.blockHashes h = none := (tcontains_eq_false_iff _ _).mp habs
        simp [applyOp, hn]
    | unspentOutput k =>
        simp [keyAbsent] at habs
        simp [applyOp, tremove_of_not_contains _ _ habs]
    | spentOutput k =>
        simp [keyAbsent] at habs
        simp [applyOp, tremove_of_not_contains _ _ habs]
    | transactionKernel k =>
        simp [keyAbsent] at habs
        simp [applyOp, tremove_of_not_contains _ _ habs]
    | orphanBlock k =>
        simp [keyAbsent] at habs
        simp [applyOp, tremove_of_not_contains _ _ habs]
  exact ⟨hmain, fun rest => by simp [write, hmain]⟩

/-- Claim C10 witness: deleting an absent header key on the empty database
is a silent no-op and the batch continues. -/
theorem delete_absent_noop_witness :
    applyOp emptyDb (.delete (.blockHeader 4)) = (emptyDb, none) ∧
    ∀ rest : List WriteOperation,
      write emptyDb (.delete (.blockHeader 4) :: rest) = write emptyDb rest :=
  delete_absent_noop emptyDb (.blockHeader 4) (by decide)

/-- Claim C8: `fetch_mmr_checkpoint` fails with `BeyondPruningHorizon`
exactly when the requested height is below the horizon block height, and
otherwise retrieves the checkpoint at index `height - horizon` (a
retrieval failure surfacing as an `AccessError`, never as
`BeyondPruningHorizon`). -/
theorem fetch_mmr_checkpoint_spec (db : InnerDatabase) (tree : MmrTree) (height : Nat)
    (hc : db.kernelMmr.checkpointCount ≤ db.headers.length) :
    (fetchMmrCheckpoint db tree height
        = some (Except.error ChainStorageError.beyondPruningHorizon)
      ↔ height < db.headers.length - db.kernelMmr.checkpointCount) ∧
    (db.headers.length - db.kernelMmr.checkpointCount ≤ height →
      fetchMmrCheckpoint db tree height
        = match (mmrOf db tree).getCheckpoint
            (height - (db.headers.length - db.kernelMmr.checkpointCount)) with
          | some cp => some (Except.ok cp)
          | none => some (Except.error (ChainStorageError.accessError "MMR Checkpoint error"))) := by
  have hh : fetchHorizonBlockHeight db
      = some (db.headers.length - db.kernelMmr.checkpointCount) := by
    simp [fetchHorizonBlockHeight, hc]
  by_cases hlt : height < db.headers.length - db.kernelMmr.checkpointCount
  · constructor
    · simp [fetchMmrCheckpoint, hh, hlt]
    · intro hge
      exact absurd hlt (Nat.not_lt.mpr hge)
  · constructor
    · simp only [fetchMmrCheckpoint, hh, if_neg hlt]
      cases hcp : (mmrOf db tree).getCheckpoint
          (height - (db.headers.length - db.kernelMmr.checkpointCount)) <;>
        simp [hcp, hlt]
    · intro _
      simp only [fetchMmrCheckpoint, hh, if_neg hlt]

/-- Claim C8 witness: with two stored headers and one committed kernel
checkpoint the horizon is one, so height zero is rejected with
`BeyondPruningHorizon` while height one resolves checkpoint index zero. -/
theorem fetch_mmr_checkpoint_spec_witness :
    fetchMmrCheckpoint
        (write emptyDb [.insert (.blockHeader 0 ⟨10, 0⟩), .insert (.blockHeader 1 ⟨11, 0⟩),
                        .createMmrCheckpoint .kernel]).1 .kernel 0
      = some (Except.error ChainStorageError.beyondPruningHorizon) :=
  ((fetch_mmr_checkpoint_spec
      (write emptyDb [.insert (.blockHeader 0 ⟨10, 0⟩), .insert (.blockHeader 1 ⟨11, 0⟩),
                      .createMmrCheckpoint .kernel]).1 .kernel 0 (by decide)).1).mpr (by decide)

/-- Claim C3: inserting an unspent output whose leaf-index reverse lookup on
the range-proof hash resolves to no index is a silent no-op (no error, no
record inserted, state unchanged), whereas inserting a transaction kernel
always inserts the kernel record and reports no error, regardless of any
index resolution. -/
theorem insert_output_kernel_asymmetry :
    (∀ (db : InnerDatabase) (k : Hash) (v : TransactionOutput),
       tcontains db.utxos k = false →
       db.rangeProofMmr.findLeafIndex v.proofHash = none →
       applyOp db (.insert (.unspentOutput k v false)) = (db, none)) ∧
    (∀ (db : InnerDatabase) (k : Hash) (v : Nat) (u : Bool),
       tcontains db.kernels k = false →
       (applyOp db (.insert (.transactionKernel k v u))).2 = none ∧
       tcontains (applyOp db (.insert (.transactionKernel k v u))).1.kernels k = true) := by
  constructor
  · intro db k v h1 h2
    simp [applyOp, h1, h2]
  · intro db k v u h1
    cases u <;> simp [applyOp, h1, tcontains_tinsert_self]

/-- Claim C3 witness: on the empty database, inserting an output without
updating the accumulators leaves the database untouched and reports no
error, while inserting a kernel stores the kernel record. -/
theorem insert_output_kernel_asymmetry_witness :
    applyOp emptyDb (.insert (.unspentOutput 1 ⟨0, 5⟩ false)) = (emptyDb, none) ∧
    (applyOp emptyDb (.insert (.transactionKernel 2 7 true))).2 = none ∧
    tcontains (applyOp emptyDb (.insert (.transactionKernel 2 7 true))).1.kernels 2 = true :=
  ⟨insert_output_kernel_asymmetry.1 emptyDb 1 ⟨0, 5⟩ (by decide) (by decide),
   insert_output_kernel_asymmetry.2 emptyDb 2 7 true (by decide)⟩

/-- Claim C4: inserting a fresh unspent output with `update_mmr = true`
succeeds, makes the output contained in the UTXO table, and grows the
current leaf counts of both the UTXO and the range-proof accumulators by
exactly one. -/
theorem insert_fresh_utxo_spec (db : InnerDatabase) (k : Hash) (v : TransactionOutput)
    (h1 : tcontains db.utxos k = false) (_h2 : tcontains db.stxos k = false)
    (_h3 : tcontains db.kernels k = false) (_h4 : tcontains db.orphans k = false)
    (_h5 : tcontains db.blockHashes k = false)
    (_h6 : k ∉ db.utxoMmr.current.leaves) (_h7 : k ∉ db.kernelMmr.current.leaves)
    (_h8 : k ∉ db.rangeProofMmr.current.leaves) :
    (applyOp db (.insert (.unspentOutput k v true))).2 = none ∧
    containsKey (applyOp db (.insert (.unspentOutput k v true))).1 (.unspentOutput k) = true ∧
    (applyOp db (.insert (.unspentOutput k v true))).1.utxoMmr.current.leaves.length
      = db.utxoMmr.current.leaves.length + 1 ∧
    (applyOp db (.insert (.unspentOutput k v true))).1.rangeProofMmr.current.leaves.length
      = db.rangeProofMmr.current.leaves.length + 1 := by
  obtain ⟨idx, hidx⟩ :
      ∃ i, (db.rangeProofMmr.push v.proofHash).findLeafIndex v.proofHash = some i := by
    have hs := findLeafIndexIn_append_self db.rangeProofMmr.current.leaves v.proofHash
    have hcur : (db.rangeProofMmr.push v.proofHash).current.leaves
        = db.rangeProofMmr.current.leaves ++ [v.proofHash] := by
      simp [current_push, MutableMmr.push]
    rw [MerkleChangeTracker.findLeafIndex, hcur]
    exact Option.isSome_iff_exists.mp hs
  simp [applyOp, h1, hidx, containsKey, tcontains_tinsert_self, length_current_push]

/-- Claim C4 witness: inserting hash 1 with range-proof hash 5 into the empty
database succeeds, makes it contained, and takes both leaf counts from
zero to one. -/
theorem insert_fresh_utxo_spec_witness :
    (applyOp emptyDb (.insert (.unspentOutput 1 ⟨0, 5⟩ true))).2 = none ∧
    containsKey (applyOp emptyDb (.insert (.unspentOutput 1 ⟨0, 5⟩ true))).1
      (.unspentOutput 1) = true ∧
    (applyOp emptyDb (.insert (.unspentOutput 1 ⟨0, 5⟩ true))).1.utxoMmr.current.leaves.length
      = emptyDb.utxoMmr.current.leaves.length + 1 ∧
    (applyOp emptyDb
        (.insert (.unspentOutput 1 ⟨0, 5⟩ true))).1.rangeProofMmr.current.leaves.length
      = emptyDb.rangeProofMmr.current.leaves.length + 1 :=
  insert_fresh_utxo_spec emptyDb 1 ⟨0, 5⟩ (by decide) (by decide) (by decide) (by decide)
    (by decide) (by decide) (by decide) (by decide)

/-- Claim C5: for a hash present in the UTXO table, a `Spend` followed by an
`UnSpend` completes without error, restores the hash to the UTXO table,
leaves it absent from the STXO table, and preserves the stored record
(accumulator leaf index included) exactly. -/
theorem spend_unspend_roundtrip (db : InnerDatabase) (h : Hash)
    (hc : tcontains db.utxos h = true) :
    (write db [.spend (.unspentOutput h), .unspend (.spentOutput h)]).2 = none ∧
    containsKey (write db [.spend (.unspentOutput h), .unspend (.spentOutput h)]).1
      (.unspentOutput h) = true ∧
    containsKey (write db [.spend (.unspentOutput h), .unspend (.spentOutput h)]).1
      (.spentOutput h) = false ∧
    tfind? (write db [.spend (.unspentOutput h), .unspend (.spentOutput h)]).1.utxos h
      = tfind? db.utxos h := by
  simp only [tcontains] at hc
  obtain ⟨node, hnode⟩ := Option.isSome_iff_exists.mp hc
  simp [write, applyOp, spendUtxo, unspendStxo, hnode, tfind?_tinsert_self,
        containsKey, tcontains_tinsert_self, tcontains_tremove_self]

/-- Claim C5 witness: the round-trip on a database holding one inserted
output restores the stored record unchanged. -/
theorem spend_unspend_roundtrip_witness :
    (write (applyOp emptyDb (.insert (.unspentOutput 1 ⟨0, 5⟩ true))).1
        [.spend (.unspentOutput 1), .unspend (.spentOutput 1)]).2 = none ∧
    containsKey (write (applyOp emptyDb (.insert (.unspentOutput 1 ⟨0, 5⟩ true))).1
        [.spend (.unspentOutput 1), .unspend (.spentOutput 1)]).1 (.unspentOutput 1) = true ∧
    containsKey (write (applyOp emptyDb (.insert (.unspentOutput 1 ⟨0, 5⟩ true))).1
        [.spend (.unspentOutput 1), .unspend (.spentOutput 1)]).1 (.spentOutput 1) = false ∧
    tfind? (write (applyOp emptyDb (.insert (.unspentOutput 1 ⟨0, 5⟩ true))).1
        [.spend (.unspentOutput 1), .unspend (.spentOutput 1)]).1.utxos 1
      = tfind? (applyOp emptyDb (.insert (.unspentOutput 1 ⟨0, 5⟩ true))).1.utxos 1 :=
  spend_unspend_roundtrip (applyOp emptyDb (.insert (.unspentOutput 1 ⟨0, 5⟩ true))).1 1
    (by decide)

/-- Disjointness of the key sets of the UTXO and STXO tables
(the cross-table invariant of the spec's data model). -/
def disjointKeys (db : InnerDatabase) : Prop :=
  ∀ h : Hash, tcontains db.utxos h = false ∨ tcontains db.stxos h = false

/-- Transport of key disjointness along equal UTXO and STXO tables. -/
theorem disjointKeys_congr (db db2 : InnerDatabase)
    (hu : db2.utxos = db.utxos) (hs : db2.stxos = db.stxos)
    (hd : disjointKeys db) : disjointKeys db2 := by
  intro h
  rw [hu, hs]
  exact hd h

/-- After an `Insert(UnspentOutput)` step the STXO table is unchanged and the
UTXO table is either unchanged or extended at the inserted key. -/
theorem insert_utxo_tables (db : InnerDatabase) (k : Hash) (v : TransactionOutput) (u : Bool) :
    (applyOp db (.insert (.unspentOutput k v u))).1.stxos = db.stxos ∧
    ((applyOp db (.insert (.unspentOutput k v u))).1.utxos = db.utxos ∨
     ∃ node : MerkleNode TransactionOutput,
       (applyOp db (.insert (.unspentOutput k v u))).1.utxos = tinsert db.utxos k node) := by
  by_cases hc : tcontains db.utxos k = true
  · simp [applyOp, hc]
  · rw [Bool.not_eq_true] at hc
    cases u
    · cases hf : db.rangeProofMmr.findLeafIndex v.proofHash with
      | none => simp [applyOp, hc, hf]
      | some idx =>
          exact ⟨by simp [applyOp, hc, hf], Or.inr ⟨⟨idx, v⟩, by simp [applyOp, hc, hf]⟩⟩
    · cases hf : (db.rangeProofMmr.push v.proofHash).findLeafIndex v.proofHash with
      | none => simp [applyOp, hc, hf]
      | some idx =>
          exact ⟨by simp [applyOp, hc, hf], Or.inr ⟨⟨idx, v⟩, by simp [applyOp, hc, hf]⟩⟩

/-- The batch exhibiting the disjointness violation: insert an output, spend
it, then insert an output record under the same hash again (the second
insert checks only the UTXO table for duplicates, never the STXO table). -/
def disjointCexOps : List WriteOperation :=
  [.insert (.unspentOutput 1 ⟨0, 5⟩ true),
   .spend (.unspentOutput 1),
   .insert (.unspentOutput 1 ⟨1, 6⟩ true)]

/-- Claim C2 counterexample: a batch reachable from the empty database
completes without error and leaves hash 1 simultaneously a key of the
UTXO table and of the STXO table, so the claimed disjointness invariant
fails on the code. -/
theorem utxo_stxo_disjoint_cex :
    (write emptyDb disjointCexOps).2 = none ∧
    tcontains (write emptyDb disjointCexOps).1.utxos 1 = true ∧
    tcontains (write emptyDb disjointCexOps).1.stxos 1 = true ∧
    ¬ disjointKeys (write emptyDb disjointCexOps).1 := by
  refine ⟨by decide, by decide, by decide, ?_⟩
  intro hdisj
  rcases hdisj 1 with h1 | h1 <;> revert h1 <;> decide

/-- Claim C2 (amended): every write step preserves UTXO/STXO key
disjointness except `Insert(UnspentOutput k, …)` when `k` is already a
key of the STXO table; in particular `Spend` and `UnSpend` always
preserve disjointness. -/
theorem utxo_stxo_disjoint_amended (db : InnerDatabase) (op : WriteOperation)
    (hd : disjointKeys db)
    (hins : ∀ (k : Hash) (v : TransactionOutput) (u : Bool),
      op = .insert (.unspentOutput k v u) → tcontains db.stxos k = false) :
    disjointKeys (applyOp db op).1 := by
  cases op with
  | insert p =>
    cases p with
    | metadata k v =>
        refine disjointKeys_congr db _ ?_ ?_ hd <;>
          (by_cases hc : tcontains db.metadata k = true <;> simp [applyOp, hc])
    | blockHeader k v =>
        refine disjointKeys_congr db _ ?_ ?_ hd <;>
          (by_cases hc : tcontains db.headers k = true <;> simp [applyOp, hc])
    | orphanBlock k v =>
        refine disjointKeys_congr db _ ?_ ?_ hd <;>
          (by_cases hc : tcontains db.orphans k = true <;> simp [applyOp, hc])
    | transactionKernel k v u =>
        refine disjointKeys_congr db _ ?_ ?_ hd <;>
          (by_cases hc : tcontains db.kernels k = true <;> cases u <;> simp [applyOp, hc])
    | unspentOutput k v u =>
        have hst : tcontains db.stxos k = false := hins k v u rfl
        obtain ⟨hs, hu⟩ := insert_utxo_tables db k v u
        intro h
        rcases hu with hu | ⟨node, hu⟩
        · rw [hu, hs]
          exact hd h
        · rw [hu, hs]
          by_cases hk : h = k
          · subst hk
            exact Or.inr hst
          · rcases hd h with h1 | h1
            · exact Or.inl (by rw [tcontains_tinsert_ne db.utxos k h node hk]; exact h1)
            · exact Or.inr h1
  | delete key =>
    cases key with
    | metadata k => exact hd
    | blockHeader k =>
        refine disjointKeys_congr db _ ?_ ?_ hd <;>
          (cases hf : tfind? db.headers k <;> simp [applyOp, hf])
    | blockHash h =>
        refine disjointKeys_congr db _ ?_ ?_ hd <;>
          (cases hf : tfind? db.blockHashes h <;> simp [applyOp, hf])
    | transactionKernel k =>
        refine disjointKeys_congr db _ ?_ ?_ hd <;> simp [applyOp]
    | orphanBlock k =>
        refine disjointKeys_congr db _ ?_ ?_ hd <;> simp [applyOp]
    | unspentOutput k =>
        intro h
        by_cases hk : h = k
        · subst hk
          exact Or.inl (by simp [applyOp, tcontains_tremove_self])
        · rcases hd h with h1 | h1
          · exact Or.inl (by simp [applyOp, tcontains_tremove_ne db.utxos k h hk, h1])
          · exact Or.inr (by simp [applyOp, h1])
    | spentOutput k =>
        intro h
        by_cases hk : h = k
        · subst hk
          exact Or.inr (by simp [applyOp, tcontains_tremove_self])
        · rcases hd h with h1 | h1
          · exact Or.inl (by simp [applyOp, h1])
          · exact Or.inr (by simp [applyOp, tcontains_tremove_ne db.stxos k h hk, h1])
  | spend key =>
    cases key with
    | unspentOutput h0 =>
        cases hf : tfind? db.utxos h0 with
        | none =>
            have hid : (applyOp db (.spend (.unspentOutput h0))).1 = db := by
              simp [applyOp, spendUtxo, hf]
            rw [hid]
            exact hd
        | some node =>
            have hres : (applyOp db (.spend (.unspentOutput h0))).1
                = { db with utxos := tremove db.utxos h0,
                            utxoMmr := db.utxoMmr.delete node.index,
                            stxos := tinsert db.stxos h0 node } := by
              simp [applyOp, spendUtxo, hf]
            intro h
            rw [hres]
            by_cases hk : h = h0
            · subst hk
              exact Or.inl (by simp [tcontains_tremove_self])
            · rcases hd h with h1 | h1
              · exact Or.inl (by simp [tcontains_tremove_ne db.utxos h0 h hk, h1])
              · exact Or.inr (by simp [tcontains_tinsert_ne db.stxos h0 h node hk, h1])
    | metadata k => exact hd
    | blockHeader k => exact hd
    | blockHash h => exact hd
    | spentOutput k => exact hd
    | transactionKernel k => exact hd
    | orphanBlock k => exact hd
  | unspend key =>
    cases key with
    | spentOutput h0 =>
        cases hf : tfind? db.stxos h0 with
        | none =>
            have hid : (applyOp db (.unspend (.spentOutput h0))).1 = db := by
              simp [applyOp, unspendStxo, hf]
            rw [hid]
            exact hd
        | some node =>
            have hres : (applyOp db (.unspend (.spentOutput h0))).1
                = { db with stxos := tremove db.stxos h0,
                            utxos := tinsert db.utxos h0 node } := by
              simp [applyOp, unspendStxo, hf]
            intro h
            rw [hres]
            by_cases hk : h = h0
            · subst hk
              exact Or.inr (by simp [tcontains_tremove_self])
            · rcases hd h with h1 | h1
              · exact Or.inl (by simp [tcontains_tinsert_ne db.utxos h0 h node hk, h1])
              · exact Or.inr (by simp [tcontains_tremove_ne db.stxos h0 h hk, h1])
    | metadata k => exact hd
    | blockHeader k => exact hd
    | blockHash h => exact hd
    | unspentOutput k => exact hd
    | transactionKernel k => exact hd
    | orphanBlock k => exact hd
  | createMmrCheckpoint tree => cases tree <;> exact hd
  | rewindMmr tree steps => cases tree <;> exact hd

/-- Claim C2 witness (amended form): a spend step on the empty database
preserves disjointness. -/
theorem utxo_stxo_disjoint_amended_witness :
    disjointKeys (applyOp emptyDb (.spend (.unspentOutput 1))).1 :=
  utxo_stxo_disjoint_amended emptyDb (.spend (.unspentOutput 1))
    (fun _ => Or.inl rfl)
    (fun _ _ _ hco => WriteOperation.noConfusion hco)

/-- Claim C7: `calculate_mmr_root` leaves the database (all tables and all
accumulators, hence `fetch_mmr_root` of every tree) unchanged, and returns
exactly the root that actually pushing the additions into the selected
tracker and tombstoning the deletion indices resolved through the UTXO
table (UTXO tree only; deletions are ignored for the other trees) would
have produced. -/
theorem calculate_mmr_root_spec (db : InnerDatabase) (tree : MmrTree) (adds dels : List Hash) :
    (calculateMmrRoot db tree adds dels).2 = db ∧
    (calculateMmrRoot db tree adds dels).1
      = fetchMmrRoot (pushAndDelete db tree adds dels) tree := by
  refine ⟨rfl, ?_⟩
  cases tree <;>
    simp [calculateMmrRoot, pushAndDelete, mmrOf, fetchMmrRoot, pruneMutableMmr,
          MerkleChangeTracker.getMerkleRoot, MutableMmr.getMerkleRoot,
          current_foldl_push, current_foldl_delete]

/-- Claim C9: `RewindMmr(tree, steps_back)` never fails; with zero steps it
resets the selected tracker to its last committed checkpoint and with a
positive count it rewinds it, dropping exactly `steps_back` checkpoints
from the retained history; every table and the two other trackers are
untouched. -/
theorem rewind_mmr_spec (db : InnerDatabase) (tree : MmrTree) (steps : Nat) :
    (applyOp db (.rewindMmr tree steps)).2 = none ∧
    mmrOf (applyOp db (.rewindMmr tree steps)).1 tree
      = (if steps = 0 then (mmrOf db tree).reset else (mmrOf db tree).rewind steps) ∧
    (∀ t2 : MmrTree, t2 ≠ tree →
       mmrOf (applyOp db (.rewindMmr tree steps)).1 t2 = mmrOf db t2) ∧
    (applyOp db (.rewindMmr tree steps)).1.metadata = db.metadata ∧
    (applyOp db (.rewindMmr tree steps)).1.headers = db.headers ∧
    (applyOp db (.rewindMmr tree steps)).1.blockHashes = db.blockHashes ∧
    (applyOp db (.rewindMmr tree steps)).1.utxos = db.utxos ∧
    (applyOp db (.rewindMmr tree steps)).1.stxos = db.stxos ∧
    (applyOp db (.rewindMmr tree steps)).1.kernels = db.kernels ∧
    (applyOp db (.rewindMmr tree steps)).1.orphans = db.orphans ∧
    (mmrOf (applyOp db (.rewindMmr tree steps)).1 tree).checkpointCount
      = (mmrOf db tree).checkpointCount - steps := by
  have hcp : ∀ t : MerkleChangeTracker,
      (if steps = 0 then t.reset else t.rewind steps).checkpointCount
        = t.checkpointCount - steps := by
    intro t
    by_cases hs : steps = 0
    · simp [hs, MerkleChangeTracker.reset, MerkleChangeTracker.checkpointCount]
    · simp [hs, MerkleChangeTracker.rewind, MerkleChangeTracker.checkpointCount,
            Nat.min_eq_left (Nat.sub_le _ _)]
  cases tree <;>
    refine ⟨rfl, rfl, ?_, rfl, rfl, rfl, rfl, rfl, rfl, rfl, hcp _⟩ <;>
    (intro t2 ht2; cases t2 <;> first | exact absurd rfl ht2 | rfl)

/-- Claim C9 witness: rewinding the kernel tracker by one step on a database
with one committed kernel checkpoint drops that checkpoint and leaves the
UTXO tracker and the tables alone. -/
theorem rewind_mmr_spec_witness :
    mmrOf (applyOp (applyOp emptyDb (.createMmrCheckpoint .kernel)).1
        (.rewindMmr .kernel 1)).1 .utxo
      = mmrOf (applyOp emptyDb (.createMmrCheckpoint .kernel)).1 .utxo ∧
    (mmrOf (applyOp (applyOp emptyDb (.createMmrCheckpoint .kernel)).1
        (.rewindMmr .kernel 1)).1 .kernel).checkpointCount
      = (mmrOf (applyOp emptyDb (.createMmrCheckpoint .kernel)).1 .kernel).checkpointCount - 1 :=
  ⟨(rewind_mmr_spec (applyOp emptyDb (.createMmrCheckpoint .kernel)).1 .kernel 1).2.2.1 .utxo
     (by decide),
   (rewind_mmr_spec (applyOp emptyDb (.createMmrCheckpoint .kernel)).1 .kernel
     1).2.2.2.2.2.2.2.2.2.2⟩

end Tari
